/-
Verification of plateforme_lidar/calculs.py against its specification.

The file shallowly embeds the functions of `calculs.py` that the claims
concern: the refraction-correction routines `correction3D` and
`correction_vect` (numpy float arithmetic idealised over ℝ, with a separate
IEEE-style NaN/∞-tracking model for the one place a claim is about NaN),
the KML export `writeKML`, the per-column normaliser `featureNorm`
(field arithmetic over ℚ with explicit NaN/∞ values), and the pure parts of
the `ReverseTiling_mem` class (`searchingLines`, `_mergeLines`,
`writingLines`, `removeBuffer`), with external effects (subprocess calls,
file renames) reified as data and Python exceptions as `Except`.
-/
import Mathlib

namespace Calculs

/-- Python exceptions that the embedded code can raise. -/
inductive PyErr where
  | valueError (msg : String)
  | nameError (msg : String)
  | indexError (msg : String)
deriving DecidableEq, Repr

instance exceptDecEq {ε α : Type} [DecidableEq ε] [DecidableEq α] :
    DecidableEq (Except ε α) := fun x y =>
  match x, y with
  | .ok a, .ok b =>
      if h : a = b then .isTrue (by rw [h]) else .isFalse (by simp [h])
  | .error e, .error f =>
      if h : e = f then .isTrue (by rw [h]) else .isFalse (by simp [h])
  | .ok _, .error _ => .isFalse (by simp)
  | .error _, .ok _ => .isFalse (by simp)

/-! ## IEEE-style value model

numpy float operations do not raise on division by zero: `0/0` yields NaN,
`x/0` (x ≠ 0) yields a signed infinity, and NaN propagates through
arithmetic.  `NpVal α` models a float as either a finite value of the
idealising ordered field `α`, a signed infinity, or NaN. -/

inductive NpVal (α : Type) where
  | fin (x : α)
  | pinf
  | ninf
  | nan
deriving DecidableEq, Repr

namespace NpVal

variable {α : Type} [LinearOrderedField α]

/-- `np.isnan`. -/
def isNaN : NpVal α → Bool
  | nan => true
  | _ => false

/-- `np.isfinite` (false on NaN and on the infinities). -/
def isFinite : NpVal α → Bool
  | fin _ => true
  | _ => false

/-- IEEE division of a value by a finite float `b` (`0/0 ↦ NaN`,
`x/0 ↦ ±∞` for `x ≠ 0`, `±∞/0 ↦ ±∞`, NaN propagates). -/
def divFin (v : NpVal α) (b : α) : NpVal α :=
  match v with
  | fin a =>
      if b ≠ 0 then fin (a / b)
      else if a = 0 then nan
      else if 0 < a then pinf
      else ninf
  | pinf => if b < 0 then ninf else pinf
  | ninf => if b < 0 then pinf else ninf
  | nan => nan

/-- IEEE subtraction of a finite float `m` from a value. -/
def subFin (v : NpVal α) (m : α) : NpVal α :=
  match v with
  | fin a => fin (a - m)
  | pinf => pinf
  | ninf => ninf
  | nan => nan

/-- IEEE multiplication by the positive finite constant 100. -/
def mul100 : NpVal α → NpVal α
  | fin a => fin (100 * a)
  | pinf => pinf
  | ninf => ninf
  | nan => nan

end NpVal

/-! ## featureNorm  (calculs.py lines 292-304)

`featureNorm` iterates over the columns of a 2-D float array and rewrites
each column in place from the old value of that column alone; we therefore
represent the dataset by its list of columns.  Entries are `NpVal ℚ`
(numpy float64 idealised as ℚ: only field operations occur here). -/

/-- The finite entries of a column, in order (`col[np.isfinite(col)]`). -/
def finVals (col : List (NpVal ℚ)) : List ℚ :=
  col.foldr (fun v acc => match v with | .fin x => x :: acc | _ => acc) []

/-- Python `min` over the finite entries of a column
(`min(col[np.isfinite(col)])`); `none` models the `ValueError` Python's
`min` raises on an empty sequence. -/
def minFin (col : List (NpVal ℚ)) : Option ℚ :=
  match finVals col with
  | [] => none
  | x :: xs => some (xs.foldl min x)

/-- Python `max` over the finite entries of a column. -/
def maxFin (col : List (NpVal ℚ)) : Option ℚ :=
  match finVals col with
  | [] => none
  | x :: xs => some (xs.foldl max x)

/-- One iteration of the column loop of `featureNorm` (calculs.py
lines 295-303): if the whole column is NaN it becomes the constant −1
column; otherwise `newcol = (col-mini)/(maxi-mini)*100` elementwise with
`mini`/`maxi` the min/max of the finite entries, and any NaN of `newcol`
is replaced by −1.  `Except.error` models the `ValueError` raised by
`min` when the column has no finite entry (e.g. all ±∞). -/
def normCol (col : List (NpVal ℚ)) : Except PyErr (List (NpVal ℚ)) :=
  if col.all NpVal.isNaN then
    .ok (col.map (fun _ => NpVal.fin (-1)))
  else
    match minFin col, maxFin col with
    | some mini, some maxi =>
        let newcol := col.map (fun v => (v.subFin mini).divFin (maxi - mini) |>.mul100)
        .ok (newcol.map (fun v => if v.isNaN then NpVal.fin (-1) else v))
    | _, _ => .error (.valueError "min() arg is an empty sequence")

/-- A Python `for` loop collecting one result per element, aborting at the
first raised exception: the elementwise `Except` analogue of `List.map`. -/
def mapE {α β : Type} (f : α → Except PyErr β) : List α → Except PyErr (List β)
  | [] => .ok []
  | a :: l =>
      match f a, mapE f l with
      | .ok b, .ok bs => .ok (b :: bs)
      | .error e, _ => .error e
      | .ok _, .error e => .error e

/-- `featureNorm` (calculs.py lines 292-304): rewrite every column of the
dataset by `normCol`, left to right, propagating a Python exception. -/
def featureNorm (dataset : List (List (NpVal ℚ))) :
    Except PyErr (List (List (NpVal ℚ))) :=
  mapE normCol dataset

/-! ## writeKML  (calculs.py lines 171-178)

The KML object and the saved file are reified as data: `KmlRun` records
whether the length-mismatch message was printed (the `assert` of line 172
is wrapped in `try/except` whose handler only prints), the placemarks
added by the loop of lines 175-176, and whether `fichier.save` (line 177)
was reached.  `descriptions[names.index(i)]` and
`coordinates[names.index(i)]` can raise `IndexError`, which aborts the
function before any save. -/

structure KmlRun (γ δ : Type) where
  warned : Bool
  placemarks : List (String × δ × γ)
  saved : Bool
deriving DecidableEq, Repr

/-- Python list indexing `xs[i]` for nonnegative `i`: `IndexError` when
`i` is out of range. -/
def pyGet {α : Type} (xs : List α) (i : Nat) : Except PyErr α :=
  match xs.get? i with
  | some a => .ok a
  | none => .error (.indexError "list index out of range")

/-- `writeKML` (calculs.py lines 171-178).  The equal-length assertion is
caught by the bare `except`, which prints a warning and lets execution
continue; each loop iteration looks the name up with `names.index(i)`
(index of the first occurrence) and indexes the description and coordinate
lists with it; the file is saved only after the whole loop succeeds. -/
def writeKML {γ δ : Type} (names : List String) (descriptions : List δ)
    (coordinates : List γ) : Except PyErr (KmlRun γ δ) :=
  let warned : Bool :=
    !(names.length = descriptions.length ∧ names.length = coordinates.length ∧
      descriptions.length = coordinates.length : Bool)
  let newpoint : String → Except PyErr (String × δ × γ) := fun i =>
    match pyGet descriptions (names.indexOf i),
        pyGet coordinates (names.indexOf i) with
    | .ok d, .ok c => .ok (i, d, c)
    | .error e, _ => .error e
    | .ok _, .error e => .error e
  match mapE newpoint names with
  | .ok placemarks => .ok ⟨warned, placemarks, true⟩
  | .error e => .error e

/-! ## ReverseTiling_mem  (calculs.py lines 180-248)

The class keeps `workspace` (directory prefix), `motif`
(`fileroot.split('XX')`) and, after `searchingLines`, `linesDict`.
Python 3.7+ dicts preserve insertion order, so `linesDict` is an
association list.  External effects — the `lasmerge`/`lastile` command
lines passed to `utils.Run` — are reified as data. -/

structure ReverseTiling where
  workspace : String
  motif : List String
  linesDict : List (Nat × List String)
deriving DecidableEq, Repr

/-- Left-to-right, non-overlapping split of a character list on the fixed
two-character separator `XX`, with `cur` the pending piece read so far:
Python's `str.split('XX')` scan. -/
def splitXX (cur : List Char) : List Char → List (List Char)
  | 'X' :: 'X' :: rest => cur :: splitXX [] rest
  | c :: rest => splitXX (cur ++ [c]) rest
  | [] => [cur]

/-- The `self.motif = fileroot.split(sep='XX')` of the constructor
(calculs.py line 185): the pieces of the template around the literal
separator `XX`. -/
def motifOf (fileroot : String) : List String :=
  (splitXX [] fileroot.data).map String.mk

/-- One inner-loop step of `searchingLines` (calculs.py lines 230-233):
`linesDict[c] = [filename]` when the key is new (appended at the end in
Python dict insertion order), `linesDict[c] += [filename]` otherwise. -/
def dictAdd (d : List (Nat × List String)) (c : Nat) (filename : String) :
    List (Nat × List String) :=
  if (d.lookup c).isSome then
    d.map (fun p => if p.1 = c then (p.1, p.2 ++ [filename]) else p)
  else
    d ++ [(c, [filename])]

/-- `searchingLines` (calculs.py lines 224-233).  The per-file scans
(`_get_ptSrcId`, run in parallel and joined before the loop) are the
input: one `(filename, distinct point-source ids)` pair per tile file in
the workspace; an empty workspace gives the empty list.  The double loop
accumulates the identifier → file-list dictionary. -/
def searchingLines (scan : List (String × List Nat)) :
    List (Nat × List String) :=
  scan.foldl (fun d i => i.2.foldl (fun d c => dictAdd d c i.1) d) []

/-- A `lasmerge` invocation issued by `_mergeLines`: its input paths, the
`-keep_point_source` filter and the `-o` output path. -/
structure MergeCall where
  inputs : List String
  keepPointSource : Nat
  output : String
deriving DecidableEq, Repr

/-- `_mergeLines` (calculs.py lines 205-214): the inputs are
`workspace + filename` for the key's file list; the output name is
`motif[0] + "0"*diff + keyStr[0:-2] + motif[1]` where
`keyStr = str(key)`, `diff = maxLen - len(keyStr)`, and `keyStr[0:-2]`
is `keyStr` without its last two characters; `motif[0]`/`motif[1]`
raise `IndexError` if the template had no `XX`. -/
def mergeLines (rt : ReverseTiling) (key : Nat) (maxLen : Nat) :
    Except PyErr MergeCall :=
  match pyGet rt.motif 0, pyGet rt.motif 1, rt.linesDict.lookup key with
  | .ok m0, .ok m1, some files =>
      let keyStr := toString key
      let diff := maxLen - keyStr.length
      let name := m0 ++ String.mk (List.replicate diff '0') ++
        String.mk keyStr.data.dropLast.dropLast ++ m1
      .ok ⟨files.map (fun f => rt.workspace ++ f), key, rt.workspace ++ name⟩
  | .error e, _, _ => .error e
  | .ok _, .error e, _ => .error e
  | .ok _, .ok _, none => .error (.indexError "KeyError")

/-- `writingLines` (calculs.py lines 235-239, merge part):
`maxPtSrcId = len(str(max(linesDict.keys())))` — Python's `max` raises
`ValueError` on an empty dictionary — then one `_mergeLines` call per key
in dictionary order.  The buffer clean-up of lines 241-248 only renames
and removes files and issues no further merges. -/
def writingLines (rt : ReverseTiling) : Except PyErr (List MergeCall) :=
  match rt.linesDict.map Prod.fst with
  | [] => .error (.valueError "max() arg is an empty sequence")
  | k :: ks =>
      let maxPtSrcId := (toString (ks.foldl max k)).length
      mapE (fun key => mergeLines rt key maxPtSrcId) (k :: ks)

/-- The names bound at module level in calculs.py: the imports of
lines 4-15 and the module's own functions and class.  The bare name
`workspace` is not among them. -/
def calculsGlobals : List String :=
  ["lastools", "utils", "pylas", "simplekml", "np", "math", "copy", "glob",
   "os", "sp", "cKDTree", "PCA", "DBSCAN", "Polygon", "Parallel", "delayed",
   "correction3D", "correction_vect", "computeDBSCAN", "computeDensity",
   "merge_c2c_fwf", "select_pairs_overlap", "writeKML", "ReverseTiling_mem",
   "replace_nan", "featureNorm"]

/-- Python name resolution inside a method body: a bare name is looked up
among the method's local bindings, then the module globals; an unbound
name raises `NameError`. -/
def resolveName (locals : List String) (n : String) : Bool :=
  locals.contains n || calculsGlobals.contains n

/-- The `lastile` command line of `removeBuffer` (calculs.py line 217). -/
def lastileQuery (rt : ReverseTiling) (cores : Nat) : String :=
  "lastile -i " ++ rt.workspace ++ "*.laz -remove_buffer -cores " ++
    toString cores ++ " -olaz"

/-- `removeBuffer` (calculs.py lines 216-222).  Line 218 runs the external
`lastile` call (reified as the first component).  Lines 219-222 then read
the bare name `workspace` — not `self.workspace` — which is neither a
local of the method nor a module global, so Python raises `NameError`
before any file is moved; `self` is left unchanged (and even under the
`self.workspace` reading, line 222 rebinds only a local, never the
attribute the later phases read). -/
def removeBuffer (rt : ReverseTiling) (cores : Nat) :
    String × Except PyErr ReverseTiling :=
  (lastileQuery rt cores,
    if resolveName [] "workspace" then .ok rt
    else .error (.nameError "name 'workspace' is not defined"))

/-! ## Refraction correction  (calculs.py lines 17-78)

numpy float64 arithmetic is idealised over ℝ; every numpy expression is
elementwise over the point/depth/vector arrays, embedded as lists with
one definition per source line.  A 3-D point or vector is an ℝ-triple
`(x, (y, z))`. -/

/-- A 3-D point or vector: `v.1 = x`, `v.2.1 = y`, `v.2.2 = z`. -/
abbrev V3 : Type := ℝ × ℝ × ℝ

/-- `np.linalg.norm(v, axis=1)` applied to one row. -/
noncomputable def norm3 (v : V3) : ℝ :=
  Real.sqrt (v.1 ^ 2 + v.2.1 ^ 2 + v.2.2 ^ 2)

/-- `np.linalg.norm(v[:,0:2], axis=1)` applied to one row: the norm of the
horizontal part. -/
noncomputable def norm2 (v : V3) : ℝ :=
  Real.sqrt (v.1 ^ 2 + v.2.1 ^ 2)

/-- The "gisement" (bearing) of calculs.py lines 45 and 72:
`2*np.arctan(v[:,0]/(np.linalg.norm(v[:,0:2],axis=1)+v[:,1]))` applied to
one row (real-number idealisation: `x / 0 = 0` in Lean). -/
noncomputable def gisement (v : V3) : ℝ :=
  2 * Real.arctan (v.1 / (norm2 v + v.2.1))

/-- `[a-b for (a,b) in zip(...)]`: rowwise `pt_shot - pt_app`
(calculs.py line 36). -/
def sub3 (a b : V3) : V3 :=
  (a.1 - b.1, a.2.1 - b.2.1, a.2.2 - b.2.2)

/-- Ternary `zipWith`, for elementwise numpy expressions over three
equally indexed arrays. -/
def zw3 {α β γ δ : Type} (f : α → β → γ → δ) :
    List α → List β → List γ → List δ
  | a :: as, b :: bs, c :: cs => f a b c :: zw3 f as bs cs
  | _, _, _ => []

/-- Quaternary `zipWith`. -/
def zw4 {α β γ δ ε : Type} (f : α → β → γ → δ → ε) :
    List α → List β → List γ → List δ → List ε
  | a :: as, b :: bs, c :: cs, d :: ds => f a b c d :: zw4 f as bs cs ds
  | _, _, _, _ => []

/-- 5-ary `zipWith`. -/
def zw5 {α β γ δ ε ζ : Type} (f : α → β → γ → δ → ε → ζ) :
    List α → List β → List γ → List δ → List ε → List ζ
  | a :: as, b :: bs, c :: cs, d :: ds, e :: es =>
      f a b c d e :: zw5 f as bs cs ds es
  | _, _, _, _, _ => []

/-- Lines 42-55 of calculs.py, common to both modes once the apparent
vector array `vectApp` is fixed: the norms, bearings and angles are
computed arraywise, `depthTrue`, `distPlan` and the stacked/transposed
`coords` elementwise over the aligned arrays.  Returns
`(np.transpose(coords), depthTrue)`. -/
noncomputable def corrCore (pt_app : List V3) (depthApp : List ℝ)
    (vectApp : List V3) (indRefr : ℝ) : List V3 × List ℝ :=
  let vectApp_norm := vectApp.map norm3
  let gisement_vect := vectApp.map gisement
  let thetaApp := List.zipWith (fun v n => Real.arccos (v.2.2 / n))
    vectApp vectApp_norm
  let thetaTrue := thetaApp.map (fun ta => Real.arcsin (Real.sin ta / indRefr))
  let depthTrue := zw3 (fun d ta tt =>
    d * Real.cos ta / (indRefr * Real.cos tt)) depthApp thetaApp thetaTrue
  let distPlan := zw4 (fun d ta dt tt =>
    d * Real.tan ta - dt * Real.tan tt) depthApp thetaApp depthTrue thetaTrue
  let coords := zw5 (fun p dp g dt d =>
      (p.1 + dp * Real.sin g, p.2.1 + dp * Real.cos g, p.2.2 + dt - d))
    pt_app distPlan gisement_vect depthTrue depthApp
  (coords, depthTrue)

/-- `correction3D` (calculs.py lines 17-55).  The mode check of
lines 34-41: discrete mode when `pt_shot` is non-empty and `vectorApp`
empty (`vectApp = pt_shot - pt_app`), fwf mode when `pt_shot` is empty and
`vectorApp` non-empty, `ValueError` otherwise.  Elementwise numpy
operations are `zipWith`s; the spec's data model pairs points, depths and
shot data 1:1, so numpy broadcast failures on mis-shaped batches are
outside this model. -/
noncomputable def correction3D (pt_app : List V3) (depthApp : List ℝ)
    (pt_shot : List V3) (vectorApp : List V3) (indRefr : ℝ) :
    Except PyErr (List V3 × List ℝ) :=
  if 0 < pt_shot.length ∧ vectorApp.length = 0 then
    .ok (corrCore pt_app depthApp (List.zipWith sub3 pt_shot pt_app) indRefr)
  else if pt_shot.length = 0 ∧ 0 < vectorApp.length then
    .ok (corrCore pt_app depthApp vectorApp indRefr)
  else
    .error (.valueError "pt_shot and vectorApp shouldn't be Null both")

/-- `correction_vect` (calculs.py lines 57-78): the true norm is the
apparent norm divided by the refraction index, and the true vector is
rebuilt from `thetaTrue` and the bearing. -/
noncomputable def correction_vect (vectorApp : List V3) (indRefr : ℝ) :
    List V3 :=
  let vectApp_norm := vectorApp.map norm3
  let vectTrue_norm := vectApp_norm.map (fun x => x / indRefr)
  let gisement_vect := vectorApp.map gisement
  let thetaApp := List.zipWith (fun v n => Real.arccos (v.2.2 / n))
    vectorApp vectApp_norm
  let thetaTrue := thetaApp.map (fun ta => Real.arcsin (Real.sin ta / indRefr))
  let vectTrue := zw3 (fun nt tt g =>
      (nt * Real.sin tt * Real.sin g, nt * Real.sin tt * Real.cos g,
       nt * Real.cos tt))
    vectTrue_norm thetaTrue gisement_vect
  vectTrue

/-! ### Float-faithful model of the bearing computation

Line 45 is the one place a claim is about NaN itself, so alongside the
real-number idealisation `gisement` we embed the bearing pipeline with the
IEEE value model `NpVal ℝ`: numpy's division emits NaN on `0/0` and a
signed infinity on `x/0`, and `np.arctan` maps `±∞` to `±π/2` and NaN to
NaN. -/

/-- `np.arctan` on the IEEE value model. -/
noncomputable def npArctan : NpVal ℝ → NpVal ℝ
  | .fin x => .fin (Real.arctan x)
  | .pinf => .fin (Real.pi / 2)
  | .ninf => .fin (-(Real.pi / 2))
  | .nan => .nan

/-- Multiplication by the finite constant 2 on the IEEE value model. -/
noncomputable def npTwoMul : NpVal ℝ → NpVal ℝ
  | .fin x => .fin (2 * x)
  | .pinf => .pinf
  | .ninf => .ninf
  | .nan => .nan

/-- Line 45 of calculs.py under IEEE float semantics:
`2*np.arctan(vx/(norm(v[0:2])+vy))` where the division follows numpy
(`0/0 ↦ NaN`, no exception). -/
noncomputable def gisementF (v : V3) : NpVal ℝ :=
  npTwoMul (npArctan (NpVal.divFin (NpVal.fin v.1) (norm2 v + v.2.1)))

/-! ### Per-point readings of the arraywise lines

Each numpy line of `correction3D`/`correction_vect` is elementwise; these
definitions give the value any one index receives, used to state the
pointwise characterisation of the batched definitions. -/

/-- Row `i` of `thetaApp = np.arccos(vectApp[:,2]/vectApp_norm)`. -/
noncomputable def thetaAppP (v : V3) : ℝ :=
  Real.arccos (v.2.2 / norm3 v)

/-- Row `i` of `thetaTrue = np.arcsin(np.sin(thetaApp)/indRefr)`. -/
noncomputable def thetaTrueP (v : V3) (n : ℝ) : ℝ :=
  Real.arcsin (Real.sin (thetaAppP v) / n)

/-- Row `i` of `depthTrue = depthApp*np.cos(thetaApp)/(indRefr*np.cos(thetaTrue))`. -/
noncomputable def depthTrueP (d : ℝ) (v : V3) (n : ℝ) : ℝ :=
  d * Real.cos (thetaAppP v) / (n * Real.cos (thetaTrueP v n))

/-- Row `i` of `distPlan = depthApp*np.tan(thetaApp)-depthTrue*np.tan(thetaTrue)`. -/
noncomputable def distPlanP (d : ℝ) (v : V3) (n : ℝ) : ℝ :=
  d * Real.tan (thetaAppP v) - depthTrueP d v n * Real.tan (thetaTrueP v n)

/-- Row `i` of the stacked-and-transposed `coords` of calculs.py
lines 51-53. -/
noncomputable def coordP (p : V3) (d : ℝ) (v : V3) (n : ℝ) : V3 :=
  (p.1 + distPlanP d v n * Real.sin (gisement v),
   p.2.1 + distPlanP d v n * Real.cos (gisement v),
   p.2.2 + depthTrueP d v n - d)

/-- Row `i` of the stacked-and-transposed `vectTrue` of calculs.py
lines 75-77. -/
noncomputable def trueVectP (v : V3) (n : ℝ) : V3 :=
  (norm3 v / n * Real.sin (thetaTrueP v n) * Real.sin (gisement v),
   norm3 v / n * Real.sin (thetaTrueP v n) * Real.cos (gisement v),
   norm3 v / n * Real.cos (thetaTrueP v n))

/-! ### Specification-side formulas (spec.md section 4.1)

Written from the spec's words, for comparison with the embedded code:
bearing `2·atan(vx / (hypot(vx,vy) + vy))`; apparent incidence angle
`θ_app = acos(vz / ‖v‖)`; Snell `θ_true = asin(sin(θ_app)/refractionIndex)`;
true depth `depthApp·cos(θ_app)/(refractionIndex·cos(θ_true))`; horizontal
displacement `depthApp·tan(θ_app) − depthTrue·tan(θ_true)`; true point =
apparent point shifted horizontally by `displacement·(sin bearing, cos
bearing)` and vertically by `depthTrue − depthApp`. -/

noncomputable def spec_bearing (v : V3) : ℝ :=
  2 * Real.arctan (v.1 / (Real.sqrt (v.1 ^ 2 + v.2.1 ^ 2) + v.2.1))

noncomputable def spec_thetaApp (v : V3) : ℝ :=
  Real.arccos (v.2.2 / Real.sqrt (v.1 ^ 2 + v.2.1 ^ 2 + v.2.2 ^ 2))

noncomputable def spec_thetaTrue (v : V3) (n : ℝ) : ℝ :=
  Real.arcsin (Real.sin (spec_thetaApp v) / n)

noncomputable def spec_trueDepth (d : ℝ) (v : V3) (n : ℝ) : ℝ :=
  d * Real.cos (spec_thetaApp v) / (n * Real.cos (spec_thetaTrue v n))

noncomputable def spec_displacement (d : ℝ) (v : V3) (n : ℝ) : ℝ :=
  d * Real.tan (spec_thetaApp v) - spec_trueDepth d v n * Real.tan (spec_thetaTrue v n)

noncomputable def spec_truePoint (p : V3) (d : ℝ) (v : V3) (n : ℝ) : V3 :=
  (p.1 + spec_displacement d v n * Real.sin (spec_bearing v),
   p.2.1 + spec_displacement d v n * Real.cos (spec_bearing v),
   p.2.2 + (spec_trueDepth d v n - d))

/-! ## Helper lemmas -/

/-- Every error produced by `pyGet` is the list-indexing `IndexError`. -/
theorem pyGet_error {α : Type} (xs : List α) (i : Nat) (e : PyErr)
    (h : pyGet xs i = .error e) : e = .indexError "list index out of range" := by
  unfold pyGet at h
  cases hx : xs.get? i <;> rw [hx] at h <;> simp_all

/-- Errors of `mapE f` satisfy any predicate satisfied by all errors
of `f`. -/
theorem mapE_error_pred {α β : Type} (f : α → Except PyErr β)
    (P : PyErr → Prop) (hf : ∀ a e, f a = .error e → P e) :
    ∀ (l : List α) (e : PyErr), mapE f l = .error e → P e := by
  intro l
  induction l with
  | nil => intro e h; simp [mapE] at h
  | cons a l ih =>
      intro e h
      unfold mapE at h
      cases hfa : f a with
      | error e1 =>
          rw [hfa] at h
          cases hml : mapE f l <;> rw [hml] at h <;> simp at h <;>
            exact h ▸ hf a e1 hfa
      | ok b =>
          rw [hfa] at h
          cases hml : mapE f l with
          | ok bs => rw [hml] at h; simp at h
          | error e2 => rw [hml] at h; simp at h; exact h ▸ ih e2 hml

/-- Pointwise reading of a successful `mapE` run. -/
theorem mapE_ok_get? {α β : Type} (f : α → Except PyErr β) :
    ∀ (l : List α) (out : List β), mapE f l = .ok out →
      ∀ (i : Nat) (a : α), l.get? i = some a → (f a).toOption = out.get? i := by
  intro l
  induction l with
  | nil => intro out h i a ha; simp at ha
  | cons x l ih =>
      intro out h i a ha
      unfold mapE at h
      cases hfa : f x with
      | error e1 =>
          rw [hfa] at h
          cases hml : mapE f l <;> rw [hml] at h <;> simp at h
      | ok b =>
          rw [hfa] at h
          cases hml : mapE f l with
          | error e2 => rw [hml] at h; simp at h
          | ok bs =>
              rw [hml] at h
              simp at h
              cases i with
              | zero =>
                  rw [List.get?_cons_zero] at ha
                  rw [Option.some.injEq] at ha
                  subst ha
                  rw [← h, List.get?_cons_zero]
                  simp [hfa, Except.toOption]
              | succ j =>
                  rw [List.get?_cons_succ] at ha
                  rw [← h, List.get?_cons_succ]
                  exact ih bs hml j a ha

/-- Pointwise reading of a binary `zipWith`. -/
theorem zipWith_get?_of {α β γ : Type} (f : α → β → γ) :
    ∀ (as : List α) (bs : List β) (i : Nat) (a : α) (b : β),
      as.get? i = some a → bs.get? i = some b →
      (List.zipWith f as bs).get? i = some (f a b) := by
  intro as
  induction as with
  | nil => intro bs i a b ha; simp at ha
  | cons x xs ih =>
      intro bs i a b ha hb
      cases bs with
      | nil => simp at hb
      | cons y ys =>
          cases i with
          | zero =>
              rw [List.get?_cons_zero, Option.some.injEq] at ha hb
              subst ha; subst hb; rfl
          | succ j =>
              rw [List.get?_cons_succ] at ha hb
              rw [List.zipWith_cons_cons, List.get?_cons_succ]
              exact ih ys j a b ha hb

/-- Pointwise reading of `zw3`. -/
theorem zw3_get?_of {α β γ δ : Type} (f : α → β → γ → δ) :
    ∀ (as : List α) (bs : List β) (cs : List γ) (i : Nat) a b c,
      as.get? i = some a → bs.get? i = some b → cs.get? i = some c →
      (zw3 f as bs cs).get? i = some (f a b c) := by
  intro as
  induction as with
  | nil => intro bs cs i a b c ha; simp at ha
  | cons x xs ih =>
      intro bs cs i a b c ha hb hc
      cases bs with
      | nil => simp at hb
      | cons y ys =>
          cases cs with
          | nil => simp at hc
          | cons z zs =>
              cases i with
              | zero =>
                  rw [List.get?_cons_zero, Option.some.injEq] at ha hb hc
                  subst ha; subst hb; subst hc; rfl
              | succ j =>
                  rw [List.get?_cons_succ] at ha hb hc
                  exact ih ys zs j a b c ha hb hc

/-- Pointwise reading of `zw4`. -/
theorem zw4_get?_of {α β γ δ ε : Type} (f : α → β → γ → δ → ε) :
    ∀ (as : List α) (bs : List β) (cs : List γ) (ds : List δ) (i : Nat)
      a b c d,
      as.get? i = some a → bs.get? i = some b → cs.get? i = some c →
      ds.get? i = some d →
      (zw4 f as bs cs ds).get? i = some (f a b c d) := by
  intro as
  induction as with
  | nil => intro bs cs ds i a b c d ha; simp at ha
  | cons x xs ih =>
      intro bs cs ds i a b c d ha hb hc hd
      cases bs with
      | nil => simp at hb
      | cons y ys =>
          cases cs with
          | nil => simp at hc
          | cons z zs =>
              cases ds with
              | nil => simp at hd
              | cons w ws =>
                  cases i with
                  | zero =>
                      rw [List.get?_cons_zero, Option.some.injEq] at ha hb hc hd
                      subst ha; subst hb; subst hc; subst hd; rfl
                  | succ j =>
                      rw [List.get?_cons_succ] at ha hb hc hd
                      exact ih ys zs ws j a b c d ha hb hc hd

/-- Pointwise reading of `zw5`. -/
theorem zw5_get?_of {α β γ δ ε ζ : Type} (f : α → β → γ → δ → ε → ζ) :
    ∀ (as : List α) (bs : List β) (cs : List γ) (ds : List δ) (es : List ε)
      (i : Nat) a b c d e,
      as.get? i = some a → bs.get? i = some b → cs.get? i = some c →
      ds.get? i = some d → es.get? i = some e →
      (zw5 f as bs cs ds es).get? i = some (f a b c d e) := by
  intro as
  induction as with
  | nil => intro bs cs ds es i a b c d e ha; simp at ha
  | cons x xs ih =>
      intro bs cs ds es i a b c d e ha hb hc hd he
      cases bs with
      | nil => simp at hb
      | cons y ys =>
          cases cs with
          | nil => simp at hc
          | cons z zs =>
              cases ds with
              | nil => simp at hd
              | cons w ws =>
                  cases es with
                  | nil => simp at he
                  | cons u us =>
                      cases i with
                      | zero =>
                          rw [List.get?_cons_zero, Option.some.injEq]
                            at ha hb hc hd he
                          subst ha; subst hb; subst hc; subst hd; subst he
                          rfl
                      | succ j =>
                          rw [List.get?_cons_succ] at ha hb hc hd he
                          exact ih ys zs ws us j a b c d e ha hb hc hd he

/-- Row `i` of `corrCore`: the batched lines 42-55 give each index the
per-point values `coordP` and `depthTrueP`. -/
theorem corrCore_get? (pt_app : List V3) (depthApp : List ℝ)
    (vectApp : List V3) (n : ℝ) (i : Nat) (p : V3) (d : ℝ) (v : V3)
    (hp : pt_app.get? i = some p) (hd : depthApp.get? i = some d)
    (hv : vectApp.get? i = some v) :
    (corrCore pt_app depthApp vectApp n).1.get? i = some (coordP p d v n) ∧
    (corrCore pt_app depthApp vectApp n).2.get? i = some (depthTrueP d v n) := by
  have hnorm : (vectApp.map norm3).get? i = some (norm3 v) := by
    rw [List.get?_map, hv]; rfl
  have hgis : (vectApp.map gisement).get? i = some (gisement v) := by
    rw [List.get?_map, hv]; rfl
  have hta : (List.zipWith (fun w m => Real.arccos (w.2.2 / m)) vectApp
      (vectApp.map norm3)).get? i = some (thetaAppP v) :=
    zipWith_get?_of _ vectApp (vectApp.map norm3) i v (norm3 v) hv hnorm
  have htt : ((List.zipWith (fun w m => Real.arccos (w.2.2 / m)) vectApp
      (vectApp.map norm3)).map
        (fun ta => Real.arcsin (Real.sin ta / n))).get? i =
      some (thetaTrueP v n) := by
    rw [List.get?_map, hta]; rfl
  have hdt := zw3_get?_of
    (fun d0 ta tt => d0 * Real.cos ta / (n * Real.cos tt)) depthApp _ _ i
    d (thetaAppP v) (thetaTrueP v n) hd hta htt
  have hdp := zw4_get?_of
    (fun d0 ta dt tt => d0 * Real.tan ta - dt * Real.tan tt) depthApp _ _ _ i
    d (thetaAppP v) (depthTrueP d v n) (thetaTrueP v n) hd hta hdt htt
  have hco := zw5_get?_of
    (fun p0 dp g dt d0 =>
      ((p0.1 + dp * Real.sin g, p0.2.1 + dp * Real.cos g,
        p0.2.2 + dt - d0) : V3))
    pt_app _ _ _ _ i p (distPlanP d v n) (gisement v) (depthTrueP d v n) d
    hp hdp hgis hdt hd
  exact ⟨hco, hdt⟩

/-- Row `i` of `correction_vect`'s batched pipeline. -/
theorem correction_vect_get? (vectorApp : List V3) (n : ℝ) (i : Nat) (v : V3)
    (hv : vectorApp.get? i = some v) :
    (correction_vect vectorApp n).get? i = some (trueVectP v n) := by
  have hnorm : (vectorApp.map norm3).get? i = some (norm3 v) := by
    rw [List.get?_map, hv]; rfl
  have htn : ((vectorApp.map norm3).map (fun x => x / n)).get? i =
      some (norm3 v / n) := by
    rw [List.get?_map, hnorm]; rfl
  have hgis : (vectorApp.map gisement).get? i = some (gisement v) := by
    rw [List.get?_map, hv]; rfl
  have hta : (List.zipWith (fun w m => Real.arccos (w.2.2 / m)) vectorApp
      (vectorApp.map norm3)).get? i = some (thetaAppP v) :=
    zipWith_get?_of _ vectorApp (vectorApp.map norm3) i v (norm3 v) hv hnorm
  have htt : ((List.zipWith (fun w m => Real.arccos (w.2.2 / m)) vectorApp
      (vectorApp.map norm3)).map
        (fun ta => Real.arcsin (Real.sin ta / n))).get? i =
      some (thetaTrueP v n) := by
    rw [List.get?_map, hta]; rfl
  exact zw3_get?_of
    (fun nt tt g =>
      ((nt * Real.sin tt * Real.sin g, nt * Real.sin tt * Real.cos g,
        nt * Real.cos tt) : V3)) _ _ _ i
    (norm3 v / n) (thetaTrueP v n) (gisement v) htn htt hgis

/-- Length bound for `zw3`. -/
theorem zw3_length_le {α β γ δ : Type} (f : α → β → γ → δ) :
    ∀ (as : List α) (bs : List β) (cs : List γ),
      (zw3 f as bs cs).length ≤ as.length := by
  intro as
  induction as with
  | nil => intro bs cs; cases bs <;> cases cs <;> simp [zw3]
  | cons x xs ih =>
      intro bs cs
      cases bs with
      | nil => simp [zw3]
      | cons y ys =>
          cases cs with
          | nil => simp [zw3]
          | cons z zs =>
              simpa [zw3] using ih ys zs

/-- Length bound for `zw5`. -/
theorem zw5_length_le {α β γ δ ε ζ : Type} (f : α → β → γ → δ → ε → ζ) :
    ∀ (as : List α) (bs : List β) (cs : List γ) (ds : List δ) (es : List ε),
      (zw5 f as bs cs ds es).length ≤ as.length := by
  intro as
  induction as with
  | nil => intro bs cs ds es; cases bs <;> cases cs <;> cases ds <;>
      cases es <;> simp [zw5]
  | cons x xs ih =>
      intro bs cs ds es
      cases bs with
      | nil => simp [zw5]
      | cons y ys =>
          cases cs with
          | nil => simp [zw5]
          | cons z zs =>
              cases ds with
              | nil => simp [zw5]
              | cons w ws =>
                  cases es with
                  | nil => simp [zw5]
                  | cons u us => simpa [zw5] using ih ys zs ws us

/-- The first component of `corrCore` is no longer than the point batch. -/
theorem corrCore_fst_length_le (pt_app : List V3) (depthApp : List ℝ)
    (vectApp : List V3) (n : ℝ) :
    (corrCore pt_app depthApp vectApp n).1.length ≤ pt_app.length := by
  simp only [corrCore]
  exact zw5_length_le _ _ _ _ _ _

/-- The second component of `corrCore` is no longer than the depth batch. -/
theorem corrCore_snd_length_le (pt_app : List V3) (depthApp : List ℝ)
    (vectApp : List V3) (n : ℝ) :
    (corrCore pt_app depthApp vectApp n).2.length ≤ depthApp.length := by
  simp only [corrCore]
  exact zw3_length_le _ _ _ _

/-- The output of `correction_vect` is no longer than its input. -/
theorem correction_vect_length_le (vectorApp : List V3) (n : ℝ) :
    (correction_vect vectorApp n).length ≤ vectorApp.length := by
  simp only [correction_vect]
  refine le_trans (zw3_length_le _ _ _ _) ?_
  simp

/-! ### Geometry of the refraction formulas -/

/-- Square of the embedded 3-D norm. -/
theorem norm3_sq (v : V3) : norm3 v ^ 2 = v.1 ^ 2 + v.2.1 ^ 2 + v.2.2 ^ 2 :=
  Real.sq_sqrt (by positivity)

/-- Square of the embedded horizontal norm. -/
theorem norm2_sq (v : V3) : norm2 v ^ 2 = v.1 ^ 2 + v.2.1 ^ 2 :=
  Real.sq_sqrt (by positivity)

/-- The horizontal norm is nonnegative. -/
theorem norm2_nonneg (v : V3) : 0 ≤ norm2 v := Real.sqrt_nonneg _

/-- The horizontal norm bounds the 3-D norm from below. -/
theorem norm2_le_norm3 (v : V3) : norm2 v ≤ norm3 v :=
  Real.sqrt_le_sqrt (by nlinarith [sq_nonneg v.2.2])

/-- The vertical component is bounded by the 3-D norm. -/
theorem abs_z_le_norm3 (v : V3) : |v.2.2| ≤ norm3 v := by
  rw [← Real.sqrt_sq_eq_abs]
  exact Real.sqrt_le_sqrt (by nlinarith [sq_nonneg v.1, sq_nonneg v.2.1])

/-- A non-vanishing bearing denominator forces a nonzero horizontal part. -/
theorem norm2_pos_of_den (v : V3) (hden : norm2 v + v.2.1 ≠ 0) :
    0 < norm2 v := by
  rcases lt_or_eq_of_le (norm2_nonneg v) with h | h
  · exact h
  · exfalso
    have hsq : v.1 ^ 2 + v.2.1 ^ 2 = 0 := by
      rw [← norm2_sq v, ← h]
      norm_num
    have hy : v.2.1 = 0 := by nlinarith [sq_nonneg v.1, sq_nonneg v.2.1]
    exact hden (by rw [← h, hy, add_zero])

/-- An upward vertical component forces a nonzero 3-D norm. -/
theorem norm3_pos_of_z (v : V3) (hz : 0 < v.2.2) : 0 < norm3 v :=
  lt_of_lt_of_le (lt_of_lt_of_le hz (le_abs_self _)) (abs_z_le_norm3 v)

/-- The half-angle bearing formula of line 45 recovers the horizontal
components: `r·sin(gisement) = vx` and `r·cos(gisement) = vy` whenever the
denominator `r + vy` does not vanish. -/
theorem gisement_eq (v : V3) (hden : norm2 v + v.2.1 ≠ 0) :
    norm2 v * Real.sin (gisement v) = v.1 ∧
    norm2 v * Real.cos (gisement v) = v.2.1 := by
  have hr : 0 < norm2 v := norm2_pos_of_den v hden
  have hr2 : norm2 v ^ 2 = v.1 ^ 2 + v.2.1 ^ 2 := norm2_sq v
  set r := norm2 v with hrdef
  set t := v.1 / (r + v.2.1) with htdef
  have h1t : (0 : ℝ) < 1 + t ^ 2 := by positivity
  have hsq : Real.sqrt (1 + t ^ 2) * Real.sqrt (1 + t ^ 2) = 1 + t ^ 2 :=
    Real.mul_self_sqrt h1t.le
  have hsqrt_pos : 0 < Real.sqrt (1 + t ^ 2) := Real.sqrt_pos.mpr h1t
  have hgis : gisement v = 2 * Real.arctan t := rfl
  have hsin : Real.sin (gisement v) = 2 * t / (1 + t ^ 2) := by
    rw [hgis, Real.sin_two_mul, Real.sin_arctan, Real.cos_arctan]
    have hstep : (2 : ℝ) * (t / Real.sqrt (1 + t ^ 2)) *
        (1 / Real.sqrt (1 + t ^ 2)) =
        2 * t / (Real.sqrt (1 + t ^ 2) * Real.sqrt (1 + t ^ 2)) := by
      ring
    rw [hstep, hsq]
  have hcos : Real.cos (gisement v) = (1 - t ^ 2) / (1 + t ^ 2) := by
    rw [hgis, Real.cos_two_mul, Real.cos_arctan]
    rw [div_pow, one_pow, Real.sq_sqrt h1t.le]
    field_simp
    ring
  constructor
  · rw [hsin, ← mul_div_assoc, div_eq_iff h1t.ne', htdef]
    field_simp
    linear_combination v.1 * (r + v.2.1) * hr2
  · rw [hcos, ← mul_div_assoc, div_eq_iff h1t.ne', htdef]
    field_simp
    linear_combination (v.2.1 + r) * hr2

/-- For an upward vector, `thetaApp = arccos(vz/‖v‖)` lies in `[0, π/2]`
and has the expected cosine and sine. -/
theorem thetaAppP_cos_sin (v : V3) (hv : 0 < norm3 v) (hz : 0 ≤ v.2.2) :
    Real.cos (thetaAppP v) = v.2.2 / norm3 v ∧
    Real.sin (thetaAppP v) = norm2 v / norm3 v ∧
    0 ≤ thetaAppP v ∧ thetaAppP v ≤ Real.pi / 2 := by
  have hle : v.2.2 / norm3 v ≤ 1 := by
    rw [div_le_one hv]
    calc v.2.2 ≤ |v.2.2| := le_abs_self _
    _ ≤ norm3 v := abs_z_le_norm3 v
  have hge : 0 ≤ v.2.2 / norm3 v := div_nonneg hz hv.le
  refine ⟨Real.cos_arccos (by linarith) hle, ?_, Real.arccos_nonneg _, ?_⟩
  · rw [thetaAppP, Real.sin_arccos]
    have hkey : 1 - (v.2.2 / norm3 v) ^ 2 = (norm2 v / norm3 v) ^ 2 := by
      have h3 := norm3_sq v
      have h2 := norm2_sq v
      field_simp
      linear_combination h3 - h2
    rw [hkey, Real.sqrt_sq (div_nonneg (norm2_nonneg v) hv.le)]
  · rw [thetaAppP, Real.arccos_eq_pi_div_two_sub_arcsin]
    have := Real.arcsin_nonneg.mpr hge
    linarith

/-- With `indRefr = 1`, Snell's step is the identity on the apparent
angle of an upward vector. -/
theorem thetaTrueP_one (v : V3) (hv : 0 < norm3 v) (hz : 0 ≤ v.2.2) :
    thetaTrueP v 1 = thetaAppP v := by
  have h := thetaAppP_cos_sin v hv hz
  rw [thetaTrueP, div_one]
  exact Real.arcsin_sin (by linarith [Real.pi_div_two_pos, h.2.2.1]) h.2.2.2

/-- Per-point identity for `correction3D` at `indRefr = 1` on a strictly
upward vector: the point and the depth are unchanged. -/
theorem coordP_one (p : V3) (d : ℝ) (v : V3) (hz : 0 < v.2.2) :
    coordP p d v 1 = p ∧ depthTrueP d v 1 = d := by
  have hv : 0 < norm3 v := norm3_pos_of_z v hz
  have h := thetaAppP_cos_sin v hv hz.le
  have htt : thetaTrueP v 1 = thetaAppP v := thetaTrueP_one v hv hz.le
  have hcos_pos : 0 < Real.cos (thetaAppP v) := by
    rw [h.1]
    positivity
  have hdt : depthTrueP d v 1 = d := by
    rw [depthTrueP, htt, one_mul, mul_div_assoc, div_self hcos_pos.ne',
      mul_one]
  refine ⟨?_, hdt⟩
  rw [coordP, distPlanP, htt, hdt]
  simp

/-- Per-point identity for `correction_vect` at `indRefr = 1`: an upward
vector with non-vanishing bearing denominator is reproduced exactly. -/
theorem trueVectP_one (v : V3) (hz : 0 ≤ v.2.2)
    (hden : norm2 v + v.2.1 ≠ 0) : trueVectP v 1 = v := by
  have hr : 0 < norm2 v := norm2_pos_of_den v hden
  have hv : 0 < norm3 v := lt_of_lt_of_le hr (norm2_le_norm3 v)
  have h := thetaAppP_cos_sin v hv hz
  have htt : thetaTrueP v 1 = thetaAppP v := thetaTrueP_one v hv hz
  have hg := gisement_eq v hden
  have hNs : norm3 v * Real.sin (thetaAppP v) = norm2 v := by
    rw [h.2.1]
    field_simp
  have hNc : norm3 v * Real.cos (thetaAppP v) = v.2.2 := by
    rw [h.1]
    field_simp
  rw [trueVectP, htt, div_one]
  refine Prod.ext_iff.mpr ⟨?_, Prod.ext_iff.mpr ⟨?_, ?_⟩⟩
  · rw [hNs]
    exact hg.1
  · rw [hNs]
    exact hg.2
  · exact hNc
/-- The per-point reading of the code's arraywise formulas coincides with
the spec-side formulas (the only non-syntactic difference is the
association of the vertical shift `z + depthTrue − depthApp`). -/
theorem coordP_eq_spec (p : V3) (d : ℝ) (v : V3) (n : ℝ) :
    coordP p d v n = spec_truePoint p d v n ∧
    depthTrueP d v n = spec_trueDepth d v n := by
  unfold coordP spec_truePoint distPlanP spec_displacement depthTrueP
    spec_trueDepth thetaTrueP spec_thetaTrue thetaAppP spec_thetaApp
    gisement spec_bearing norm2 norm3
  refine ⟨?_, rfl⟩
  simp only [Prod.mk.injEq, true_and, and_true, eq_self_iff_true]
  ring

/-- The fwf branch of `correction3D` reduces to `corrCore` on the supplied
vectors. -/
theorem correction3D_fwf (pt_app : List V3) (depthApp : List ℝ)
    (vectorApp : List V3) (n : ℝ) (hne : vectorApp ≠ []) :
    correction3D pt_app depthApp [] vectorApp n =
      .ok (corrCore pt_app depthApp vectorApp n) := by
  simp [correction3D, List.length_pos.mpr hne]

/-- The discrete branch of `correction3D` reduces to `corrCore` on the
derived vectors `pt_shot - pt_app`. -/
theorem correction3D_discrete (pt_app : List V3) (depthApp : List ℝ)
    (pt_shot : List V3) (n : ℝ) (hne : pt_shot ≠ []) :
    correction3D pt_app depthApp pt_shot [] n =
      .ok (corrCore pt_app depthApp (List.zipWith sub3 pt_shot pt_app) n) := by
  simp [correction3D, List.length_pos.mpr hne]

/-- A column whose entries all satisfy `np.isnan` has no finite entry. -/
theorem finVals_eq_nil_of_all_isNaN (col : List (NpVal ℚ))
    (h : col.all NpVal.isNaN = true) : finVals col = [] := by
  induction col with
  | nil => rfl
  | cons v l ih =>
      rw [List.all_cons, Bool.and_eq_true] at h
      obtain ⟨hv, hl⟩ := h
      cases v with
      | fin x => simp [NpVal.isNaN] at hv
      | pinf => simp [NpVal.isNaN] at hv
      | ninf => simp [NpVal.isNaN] at hv
      | nan => exact ih hl

/-- Folding `min` from a value over copies of that value is the identity. -/
theorem foldl_min_replicate (j : Nat) (c : ℚ) :
    (List.replicate j c).foldl min c = c := by
  induction j with
  | zero => rfl
  | succ i ih => rw [List.replicate_succ, List.foldl_cons, min_self]; exact ih

/-- Folding `max` from a value over copies of that value is the identity. -/
theorem foldl_max_replicate (j : Nat) (c : ℚ) :
    (List.replicate j c).foldl max c = c := by
  induction j with
  | zero => rfl
  | succ i ih => rw [List.replicate_succ, List.foldl_cons, max_self]; exact ih

/-- The finite entries of a constant finite column. -/
theorem finVals_replicate_fin (k : Nat) (c : ℚ) :
    finVals (List.replicate k (NpVal.fin c)) = List.replicate k c := by
  induction k with
  | zero => rfl
  | succ j ih =>
      rw [List.replicate_succ, List.replicate_succ, ← ih]
      rfl

/-- When the column has finite entries with minimum `a` and maximum `b`,
`normCol` takes the scaling branch. -/
theorem normCol_of_minmax (col : List (NpVal ℚ)) (a b : ℚ)
    (hmin : minFin col = some a) (hmax : maxFin col = some b) :
    normCol col = .ok
      ((col.map (fun v => ((v.subFin a).divFin (b - a)).mul100)).map
        (fun v => if v.isNaN then NpVal.fin (-1) else v)) := by
  have hall : col.all NpVal.isNaN = false := by
    cases hA : col.all NpVal.isNaN
    · rfl
    · rw [minFin, finVals_eq_nil_of_all_isNaN col hA] at hmin
      simp at hmin
  unfold normCol
  rw [hall, hmin, hmax]
  simp

/-! ## Claim theorems -/

/-- C1 (counterexample): over a workspace containing zero tile files the
parallel scan yields no `(file, ids)` pairs, `searchingLines` builds the
empty `LinesDictionary` — but `writingLines` then evaluates
`max(self.linesDict.keys())` on the empty key collection and raises
`ValueError` instead of completing without error. -/
theorem writingLines_empty_raises :
    searchingLines [] = [] ∧
    writingLines ⟨"", motifOf "tile_XX.laz", searchingLines []⟩ =
      .error (.valueError "max() arg is an empty sequence") :=
  ⟨rfl, rfl⟩

/-- C1 (amended): a workspace with zero tile files yields an empty
`LinesDictionary` and zero merge invocations, but the `writingLines`
phase raises `ValueError` at `max` over the empty key collection rather
than completing without error. -/
theorem reverseTiling_empty_workspace :
    ∀ (ws fileroot : String),
      searchingLines [] = [] ∧
      writingLines ⟨ws, motifOf fileroot, searchingLines []⟩ =
        .error (.valueError "max() arg is an empty sequence") := by
  intro ws fileroot
  exact ⟨rfl, rfl⟩

/-- C2: with `LinesDictionary = {7: [fileX, fileY]}` and template
`tile_XX.laz`, the merge phase names its output `tile_.laz`, not the
specified `tile_7.laz`: `_mergeLines` drops the last two characters of the
identifier string (`keyStr[0:-2]`) after computing the zero-padding from
the full identifier length. -/
theorem mergeLines_truncated_output_name :
    writingLines ⟨"", motifOf "tile_XX.laz",
        [(7, ["fileX.laz", "fileY.laz"])]⟩ =
      .ok [⟨["fileX.laz", "fileY.laz"], 7, "tile_.laz"⟩] ∧
    "tile_.laz" ≠ "tile_7.laz" :=
  ⟨by decide, by decide⟩

/-- C3: for every reconstruction state and worker count, `removeBuffer`
issues the external `lastile` call and then raises
`NameError: name 'workspace' is not defined` — lines 219-222 read the bare
name `workspace` instead of `self.workspace` — so no buffer-stripped file
is moved into a subdirectory and the later phases are never redirected. -/
theorem removeBuffer_nameError :
    ∀ (rt : ReverseTiling) (cores : Nat),
      (removeBuffer rt cores).1 = lastileQuery rt cores ∧
      (removeBuffer rt cores).2 =
        .error (.nameError "name 'workspace' is not defined") := by
  intro rt cores
  exact ⟨rfl, rfl⟩

/-- C5: `correction3D` raises its `ValueError` exactly when `pt_shot` and
`vectorApp` are both empty or both non-empty; when exactly one of the two
is supplied the error is not raised, and an error carries no output. -/
theorem correction3D_mode_check :
    ∀ (pt_app : List V3) (depthApp : List ℝ) (pt_shot vectorApp : List V3)
      (indRefr : ℝ),
      (correction3D pt_app depthApp pt_shot vectorApp indRefr =
        .error (.valueError "pt_shot and vectorApp shouldn't be Null both")) ↔
      ((pt_shot = [] ∧ vectorApp = []) ∨ (pt_shot ≠ [] ∧ vectorApp ≠ [])) := by
  intro pt_app depthApp pt_shot vectorApp indRefr
  rcases pt_shot with _ | ⟨s, ss⟩ <;> rcases vectorApp with _ | ⟨v, vs⟩ <;>
    simp [correction3D]

/-- C6 (counterexample): with refractionIndex 1, the apparent point
(0,0,0) at apparent depth 1 and the downward apparent vector (0,1,−1)
(vz < 0, so θ_app = 3π/4), `correction3D` does not return the inputs
unchanged: the returned depth is −1, not 1. -/
theorem correction3D_identity_fails :
    correction3D [((0 : ℝ), 0, 0)] [(1 : ℝ)] [] [((0 : ℝ), 1, -1)] 1 ≠
      .ok ([((0 : ℝ), 0, 0)], [(1 : ℝ)]) := by
  have hdtp : depthTrueP 1 ((0 : ℝ), 1, -1) 1 = -1 := by
    have hN : norm3 ((0 : ℝ), 1, -1) = Real.sqrt 2 := by
      rw [norm3]
      norm_num
    have hs2 : Real.sqrt 2 * Real.sqrt 2 = 2 :=
      Real.mul_self_sqrt (by norm_num)
    have hspos : (0 : ℝ) < Real.sqrt 2 := Real.sqrt_pos.mpr (by norm_num)
    have harg : (-1 : ℝ) / Real.sqrt 2 = -(Real.sqrt 2 / 2) := by
      field_simp
    have hta : thetaAppP ((0 : ℝ), 1, -1) = Real.pi - Real.pi / 4 := by
      rw [thetaAppP]
      show Real.arccos ((-1 : ℝ) / norm3 ((0 : ℝ), 1, -1)) = _
      rw [hN, harg, Real.arccos_neg,
        show Real.sqrt 2 / 2 = Real.cos (Real.pi / 4) from
          Real.cos_pi_div_four.symm,
        Real.arccos_cos (by linarith [Real.pi_pos]) (by linarith [Real.pi_pos])]
    have hsin_ta : Real.sin (thetaAppP ((0 : ℝ), 1, -1)) = Real.sqrt 2 / 2 := by
      rw [hta, Real.sin_pi_sub, Real.sin_pi_div_four]
    have hcos_ta : Real.cos (thetaAppP ((0 : ℝ), 1, -1)) =
        -(Real.sqrt 2 / 2) := by
      rw [hta, Real.cos_pi_sub, Real.cos_pi_div_four]
    have htt : thetaTrueP ((0 : ℝ), 1, -1) 1 = Real.pi / 4 := by
      rw [thetaTrueP, div_one, hsin_ta,
        show Real.sqrt 2 / 2 = Real.sin (Real.pi / 4) from
          Real.sin_pi_div_four.symm,
        Real.arcsin_sin (by linarith [Real.pi_pos]) (by linarith [Real.pi_pos])]
    have hcos_tt : Real.cos (thetaTrueP ((0 : ℝ), 1, -1) 1) =
        Real.sqrt 2 / 2 := by
      rw [htt, Real.cos_pi_div_four]
    have hden2 : (Real.sqrt 2 / 2 : ℝ) ≠ 0 := by positivity
    rw [depthTrueP, hcos_ta, hcos_tt, one_mul, one_mul, neg_div,
      div_self hden2]
  intro hEq
  rw [correction3D_fwf _ _ _ _ (by simp), Except.ok.injEq] at hEq
  have h2 : (corrCore [((0 : ℝ), 0, 0)] [(1 : ℝ)] [((0 : ℝ), 1, -1)] 1).2 =
      [(1 : ℝ)] := congrArg Prod.snd hEq
  have h3 := (corrCore_get? [((0 : ℝ), 0, 0)] [(1 : ℝ)] [((0 : ℝ), 1, -1)] 1
    0 ((0 : ℝ), 0, 0) 1 ((0 : ℝ), 1, -1) rfl rfl rfl).2
  rw [h2, hdtp] at h3
  norm_num at h3

/-- C6 (amended): with refractionIndex 1 and equal-length batches whose
apparent shot vectors all point strictly upward (vz > 0, so θ_app < π/2)
and have non-vanishing bearing denominator ‖v_xy‖ + vy (the IEEE pipeline
would produce NaN there), `correction3D` returns the input points and
depths unchanged. -/
theorem correction3D_refr_one_identity :
    ∀ (pt_app : List V3) (depthApp : List ℝ) (vectorApp : List V3),
      vectorApp ≠ [] →
      depthApp.length = pt_app.length →
      vectorApp.length = pt_app.length →
      (∀ v ∈ vectorApp, 0 < v.2.2 ∧ norm2 v + v.2.1 ≠ 0) →
      correction3D pt_app depthApp [] vectorApp 1 =
        .ok (pt_app, depthApp) := by
  intro pt_app depthApp vectorApp hne hdl hvl hv
  rw [correction3D_fwf pt_app depthApp vectorApp 1 hne, Except.ok.injEq]
  refine Prod.ext_iff.mpr ⟨?_, ?_⟩
  · apply List.ext_get?
    intro i
    cases hp : pt_app.get? i with
    | none =>
        have hi : pt_app.length ≤ i := List.get?_eq_none.mp hp
        exact List.get?_eq_none.mpr
          (le_trans (corrCore_fst_length_le _ _ _ _) hi)
    | some p =>
        have hi : i < pt_app.length := by
          rcases List.get?_eq_some.mp hp with ⟨h, -⟩
          exact h
        cases hd : depthApp.get? i with
        | none =>
            exfalso
            have := List.get?_eq_none.mp hd
            omega
        | some d =>
            cases hvq : vectorApp.get? i with
            | none =>
                exfalso
                have := List.get?_eq_none.mp hvq
                omega
            | some v =>
                have hcc := corrCore_get? pt_app depthApp vectorApp 1 i
                  p d v hp hd hvq
                rw [hcc.1, (coordP_one p d v (hv v (List.get?_mem hvq)).1).1]
  · apply List.ext_get?
    intro i
    cases hd : depthApp.get? i with
    | none =>
        have hi : depthApp.length ≤ i := List.get?_eq_none.mp hd
        exact List.get?_eq_none.mpr
          (le_trans (corrCore_snd_length_le _ _ _ _) hi)
    | some d =>
        have hi : i < depthApp.length := by
          rcases List.get?_eq_some.mp hd with ⟨h, -⟩
          exact h
        cases hp : pt_app.get? i with
        | none =>
            exfalso
            have := List.get?_eq_none.mp hp
            omega
        | some p =>
            cases hvq : vectorApp.get? i with
            | none =>
                exfalso
                have := List.get?_eq_none.mp hvq
                omega
            | some v =>
                have hcc := corrCore_get? pt_app depthApp vectorApp 1 i
                  p d v hp hd hvq
                rw [hcc.2, (coordP_one p d v (hv v (List.get?_mem hvq)).1).2]

/-- C6 (witness for the amended theorem): the one-point batch with
apparent point (0,0,0), depth 1 and upward vector (0,1,1) is returned
unchanged by `correction3D` at refractionIndex 1. -/
theorem correction3D_refr_one_identity_witness :
    correction3D [((0 : ℝ), 0, 0)] [(1 : ℝ)] [] [((0 : ℝ), 1, 1)] 1 =
      .ok ([((0 : ℝ), 0, 0)], [(1 : ℝ)]) := by
  apply correction3D_refr_one_identity
  · simp
  · rfl
  · rfl
  · intro v hvmem
    rw [List.mem_singleton] at hvmem
    subst hvmem
    refine ⟨by norm_num, ?_⟩
    rw [norm2]
    norm_num [Real.sqrt_one]

/-- C7: on every valid call, each output point and depth of
`correction3D` is given by the spec formulas — θ_app = acos(vz/‖v‖),
θ_true = asin(sin(θ_app)/n), depthTrue = depthApp·cos(θ_app)/(n·cos(θ_true)),
and the apparent point shifted horizontally by
(depthApp·tan(θ_app) − depthTrue·tan(θ_true))·(sin bearing, cos bearing)
and vertically by depthTrue − depthApp — applied to the supplied vector
(fwf mode) or to the derived vector `pt_shot − pt_app` (discrete mode). -/
theorem correction3D_formulas :
    (∀ (pt_app : List V3) (depthApp : List ℝ) (vectorApp : List V3) (n : ℝ)
      (pts : List V3) (depths : List ℝ),
      correction3D pt_app depthApp [] vectorApp n = .ok (pts, depths) →
      ∀ (i : Nat) (p : V3) (d : ℝ) (v : V3),
        pt_app.get? i = some p → depthApp.get? i = some d →
        vectorApp.get? i = some v →
        pts.get? i = some (spec_truePoint p d v n) ∧
        depths.get? i = some (spec_trueDepth d v n)) ∧
    (∀ (pt_app : List V3) (depthApp : List ℝ) (pt_shot : List V3) (n : ℝ)
      (pts : List V3) (depths : List ℝ),
      correction3D pt_app depthApp pt_shot [] n = .ok (pts, depths) →
      ∀ (i : Nat) (p : V3) (d : ℝ) (s : V3),
        pt_app.get? i = some p → depthApp.get? i = some d →
        pt_shot.get? i = some s →
        pts.get? i = some (spec_truePoint p d (sub3 s p) n) ∧
        depths.get? i = some (spec_trueDepth d (sub3 s p) n)) := by
  constructor
  · intro pt_app depthApp vectorApp n pts depths h i p d v hp hd hvq
    have hne : vectorApp ≠ [] := by
      intro h0
      subst h0
      simp at hvq
    rw [correction3D_fwf pt_app depthApp vectorApp n hne,
      Except.ok.injEq] at h
    have hcc := corrCore_get? pt_app depthApp vectorApp n i p d v hp hd hvq
    have hs := coordP_eq_spec p d v n
    have h1 : (corrCore pt_app depthApp vectorApp n).1 = pts :=
      congrArg Prod.fst h
    have h2 : (corrCore pt_app depthApp vectorApp n).2 = depths :=
      congrArg Prod.snd h
    constructor
    · rw [← h1, hcc.1, hs.1]
    · rw [← h2, hcc.2, hs.2]
  · intro pt_app depthApp pt_shot n pts depths h i p d s hp hd hsq
    have hne : pt_shot ≠ [] := by
      intro h0
      subst h0
      simp at hsq
    rw [correction3D_discrete pt_app depthApp pt_shot n hne,
      Except.ok.injEq] at h
    have hvq : (List.zipWith sub3 pt_shot pt_app).get? i = some (sub3 s p) :=
      zipWith_get?_of sub3 pt_shot pt_app i s p hsq hp
    have hcc := corrCore_get? pt_app depthApp _ n i p d (sub3 s p) hp hd hvq
    have hsp := coordP_eq_spec p d (sub3 s p) n
    have h1 : (corrCore pt_app depthApp
        (List.zipWith sub3 pt_shot pt_app) n).1 = pts :=
      congrArg Prod.fst h
    have h2 : (corrCore pt_app depthApp
        (List.zipWith sub3 pt_shot pt_app) n).2 = depths :=
      congrArg Prod.snd h
    constructor
    · rw [← h1, hcc.1, hsp.1]
    · rw [← h2, hcc.2, hsp.2]

/-- C7 (witness): the concrete fwf call on point (0,0,0), depth 1 and
vector (0,1,1) produces the spec-formula point and depth at index 0. -/
theorem correction3D_formulas_witness :
    (corrCore [((0 : ℝ), 0, 0)] [(1 : ℝ)] [((0 : ℝ), 1, 1)] 1).1.get? 0 =
      some (spec_truePoint ((0 : ℝ), 0, 0) 1 ((0 : ℝ), 1, 1) 1) ∧
    (corrCore [((0 : ℝ), 0, 0)] [(1 : ℝ)] [((0 : ℝ), 1, 1)] 1).2.get? 0 =
      some (spec_trueDepth 1 ((0 : ℝ), 1, 1) 1) :=
  correction3D_formulas.1 [((0 : ℝ), 0, 0)] [(1 : ℝ)] [((0 : ℝ), 1, 1)] 1
    (corrCore [((0 : ℝ), 0, 0)] [(1 : ℝ)] [((0 : ℝ), 1, 1)] 1).1
    (corrCore [((0 : ℝ), 0, 0)] [(1 : ℝ)] [((0 : ℝ), 1, 1)] 1).2
    (by rw [correction3D_fwf _ _ _ _ (by simp)]) 0 _ _ _ rfl rfl rfl

/-- C10: with refractionIndex 1, `correction_vect` returns every batch of
vectors unchanged provided each vector has nonnegative vertical component
and non-vanishing bearing denominator ‖v_xy‖ + vy. -/
theorem correction_vect_refr_one_identity :
    ∀ (vectorApp : List V3),
      (∀ v ∈ vectorApp, 0 ≤ v.2.2 ∧ norm2 v + v.2.1 ≠ 0) →
      correction_vect vectorApp 1 = vectorApp := by
  intro vectorApp hv
  apply List.ext_get?
  intro i
  cases hvq : vectorApp.get? i with
  | none =>
      have hi := List.get?_eq_none.mp hvq
      exact List.get?_eq_none.mpr
        (le_trans (correction_vect_length_le _ _) hi)
  | some v =>
      rw [correction_vect_get? vectorApp 1 i v hvq]
      obtain ⟨hz, hden⟩ := hv v (List.get?_mem hvq)
      rw [trueVectP_one v hz hden]

/-- C10 (witness): the one-vector batch [(0,1,1)] is reproduced exactly
by `correction_vect` at refractionIndex 1. -/
theorem correction_vect_refr_one_identity_witness :
    correction_vect [((0 : ℝ), 1, 1)] 1 = [((0 : ℝ), 1, 1)] := by
  apply correction_vect_refr_one_identity
  intro v hvmem
  rw [List.mem_singleton] at hvmem
  subst hvmem
  refine ⟨by norm_num, ?_⟩
  rw [norm2]
  norm_num [Real.sqrt_one]

/-- C4 (counterexample): for the vertical apparent shot v = (0,0,1) —
vx = 0 and vy = −‖v_xy‖ = 0 — the bearing denominator of line 45 is 0,
the float division is 0/0 and the bearing evaluates to NaN, not to a
finite angle: the denominator is not guarded. -/
theorem gisement_vertical_nan :
    gisementF ((0 : ℝ), 0, 1) = NpVal.nan := by
  have h2 : norm2 ((0 : ℝ), 0, 1) = 0 := by
    rw [norm2]
    norm_num
  rw [gisementF, h2]
  norm_num [NpVal.divFin, npArctan, npTwoMul]

/-- C4 (amended): whenever vx = 0 and vy = −‖v_xy‖ (the whole degenerate
family, the vertical shot included) the bearing denominator is zero and
the IEEE evaluation of line 45 yields NaN — no division error is raised —
while for every vector with non-vanishing denominator the float pipeline
agrees with the real-valued bearing and is finite. -/
theorem gisementF_behavior :
    (∀ v : V3, v.1 = 0 → v.2.1 = -(norm2 v) → gisementF v = NpVal.nan) ∧
    (∀ v : V3, norm2 v + v.2.1 ≠ 0 →
      gisementF v = NpVal.fin (gisement v)) := by
  constructor
  · intro v h1 h2
    rw [gisementF, h1, h2, add_neg_cancel]
    norm_num [NpVal.divFin, npArctan, npTwoMul]
  · intro v hden
    rw [gisementF, gisement]
    simp [NpVal.divFin, npArctan, npTwoMul, hden]

/-- C4 (witness for the amended theorem): the degenerate vector (0,−1,5)
with vy = −‖v_xy‖ gives a NaN bearing, while (0,1,0) has denominator 2 and
a finite bearing equal to the real-valued one. -/
theorem gisementF_behavior_witness :
    gisementF ((0 : ℝ), -1, 5) = NpVal.nan ∧
    gisementF ((0 : ℝ), 1, 0) = NpVal.fin (gisement ((0 : ℝ), 1, 0)) := by
  constructor
  · apply gisementF_behavior.1
    · rfl
    · rw [norm2]
      norm_num [Real.sqrt_one]
  · apply gisementF_behavior.2
    rw [norm2]
    norm_num [Real.sqrt_one]

/-- C8: `featureNorm` rewrites every column independently and in order
(each output column is `normCol` of the input column in the same
position); a nonempty column of identical finite values becomes the
constant −1 column (the `0/0` of the degenerate scaling is NaN, replaced
by −1); a column that is entirely NaN becomes the constant −1 column; and
a column whose finite entries have minimum `a` and maximum `b` with
`a < b` maps entries equal to `a` to 0 and entries equal to `b` to 100. -/
theorem featureNorm_column_behavior :
    (∀ (ds out : List (List (NpVal ℚ))), featureNorm ds = .ok out →
      ∀ (i : Nat) (c : List (NpVal ℚ)), ds.get? i = some c →
        (normCol c).toOption = out.get? i) ∧
    (∀ (k : Nat) (c : ℚ), 0 < k →
      normCol (List.replicate k (NpVal.fin c)) =
        .ok (List.replicate k (NpVal.fin (-1)))) ∧
    (∀ (k : Nat),
      normCol (List.replicate k NpVal.nan) =
        .ok (List.replicate k (NpVal.fin (-1)))) ∧
    (∀ (col : List (NpVal ℚ)) (a b : ℚ),
      minFin col = some a → maxFin col = some b → a < b →
      ∀ (i : Nat),
        (col.get? i = some (NpVal.fin a) →
          (normCol col).toOption.bind (fun l => l.get? i) =
            some (NpVal.fin 0)) ∧
        (col.get? i = some (NpVal.fin b) →
          (normCol col).toOption.bind (fun l => l.get? i) =
            some (NpVal.fin 100))) := by
  refine ⟨?_, ?_, ?_, ?_⟩
  · intro ds out h i c hc
    exact mapE_ok_get? normCol ds out h i c hc
  · intro k c hk
    obtain ⟨j, rfl⟩ : ∃ j, k = j + 1 := ⟨k - 1, by omega⟩
    have hmin : minFin (List.replicate (j + 1) (NpVal.fin c)) = some c := by
      unfold minFin
      rw [finVals_replicate_fin, List.replicate_succ]
      simp [foldl_min_replicate]
    have hmax : maxFin (List.replicate (j + 1) (NpVal.fin c)) = some c := by
      unfold maxFin
      rw [finVals_replicate_fin, List.replicate_succ]
      simp [foldl_max_replicate]
    rw [normCol_of_minmax _ c c hmin hmax, List.map_replicate,
      List.map_replicate]
    simp [NpVal.subFin, NpVal.divFin, NpVal.mul100, NpVal.isNaN, sub_self]
  · intro k
    have hall : (List.replicate k (NpVal.nan : NpVal ℚ)).all NpVal.isNaN = true := by
      rw [List.all_eq_true]
      intro x hx
      rw [List.eq_of_mem_replicate hx]
      rfl
    unfold normCol
    rw [hall]
    simp [List.map_replicate]
  · intro col a b hmin hmax hab i
    have hba : b - a ≠ 0 := sub_ne_zero.mpr (ne_of_gt hab)
    rw [normCol_of_minmax col a b hmin hmax]
    simp only [Except.toOption, Option.some_bind]
    constructor
    · intro hi
      rw [List.get?_map, List.get?_map, hi]
      simp [NpVal.subFin, NpVal.divFin, NpVal.mul100, NpVal.isNaN, sub_self,
        hba, zero_div]
    · intro hi
      rw [List.get?_map, List.get?_map, hi]
      simp [NpVal.subFin, NpVal.divFin, NpVal.mul100, NpVal.isNaN, hba,
        div_self hba]

/-- C8 (witness): concrete columns — an all-NaN column through
`featureNorm`, a constant finite column, and the column `[1, 3, 2]` whose
minimum entry is sent to 0. -/
theorem featureNorm_column_behavior_witness :
    (normCol [NpVal.nan, NpVal.nan]).toOption =
      some [NpVal.fin (-1), NpVal.fin (-1)] ∧
    normCol (List.replicate 2 (NpVal.fin (5 : ℚ))) =
      .ok (List.replicate 2 (NpVal.fin (-1))) ∧
    (normCol [NpVal.fin 1, NpVal.fin 3, NpVal.fin 2]).toOption.bind
      (fun l => l.get? 0) = some (NpVal.fin 0) := by
  refine ⟨?_, ?_, ?_⟩
  · exact featureNorm_column_behavior.1 [[NpVal.nan, NpVal.nan]]
      [[NpVal.fin (-1), NpVal.fin (-1)]] (by decide) 0
      [NpVal.nan, NpVal.nan] rfl
  · exact featureNorm_column_behavior.2.1 2 5 (by decide)
  · exact (featureNorm_column_behavior.2.2.2
      [NpVal.fin 1, NpVal.fin 3, NpVal.fin 2] 1 3 (by decide) (by decide)
      (by decide) 0).1 (by decide)

/-- C9 (counterexample): called with 1 name, 2 descriptions and
1 coordinate — mismatched lengths — `writeKML` raises nothing: the failed
assertion is caught and only printed (`warned = true`), the placemark loop
runs and the file is saved (`saved = true`). -/
theorem writeKML_mismatched_lengths_saved :
    writeKML ["a"] ["d1", "d2"] ["c0"] =
      .ok ⟨true, [("a", "d1", "c0")], true⟩ :=
  rfl

/-- C9 (amended): on mismatched array lengths `writeKML` does not raise an
`InvalidInput` error: the length assertion is caught by the bare `except`
which only prints a warning, and the export proceeds — any run that
completes returns a saved file with the warning recorded, and the only
error the loop itself can raise is an `IndexError` from indexing a shorter
array (in which case no file is saved). -/
theorem writeKML_mismatched_lengths_behavior :
    ∀ (names descriptions coordinates : List String),
      ¬(names.length = descriptions.length ∧
        names.length = coordinates.length ∧
        descriptions.length = coordinates.length) →
      (∀ r, writeKML names descriptions coordinates = .ok r →
        r.warned = true ∧ r.saved = true) ∧
      (∀ e, writeKML names descriptions coordinates = .error e →
        e = .indexError "list index out of range") := by
  intro names descriptions coordinates hmis
  constructor
  · intro r hr
    simp only [writeKML] at hr
    split at hr
    · rename_i placemarks hpm
      simp only [Except.ok.injEq] at hr
      rw [← hr]
      refine ⟨?_, rfl⟩
      simp only [Bool.not_eq_true', decide_eq_false_iff_not]
      exact hmis
    · simp at hr
  · intro e he
    simp only [writeKML] at he
    split at he
    · simp at he
    · rename_i e' hmap
      simp only [Except.error.injEq] at he
      subst he
      refine mapE_error_pred _
        (fun e0 => e0 = PyErr.indexError "list index out of range") ?_
        names e' hmap
      intro a e2 ha
      simp only at ha
      cases h1 : pyGet descriptions (names.indexOf a) <;>
        cases h2 : pyGet coordinates (names.indexOf a) <;>
          rw [h1, h2] at ha <;> simp at ha
      · exact ha ▸ pyGet_error _ _ _ h1
      · exact ha ▸ pyGet_error _ _ _ h1
      · exact ha ▸ pyGet_error _ _ _ h2

/-- C9 (witness for the amended theorem): the concrete mismatched call
`writeKML ["a"] ["d1","d2"] ["c0"]` completes with the warning recorded
and the file saved. -/
theorem writeKML_mismatched_lengths_behavior_witness :
    (⟨true, [("a", "d1", "c0")], true⟩ : KmlRun String String).warned = true ∧
    (⟨true, [("a", "d1", "c0")], true⟩ : KmlRun String String).saved = true :=
  (writeKML_mismatched_lengths_behavior ["a"] ["d1", "d2"] ["c0"]
    (by decide)).1 ⟨true, [("a", "d1", "c0")], true⟩ rfl

end Calculs
